import Mathlib

/-!
Shallow embedding of the McNeuron hierarchical adversarial training
orchestrator (`train.py`, `train_one_by_one.py`,
`train_one_by_one_morphology.py`, `models_joint_embedding.py`).

Model weights are lists of rationals grouped into named layers; the
external collaborators (keras `train_on_batch` gradient effects, the
`batch_utils` batch producers, matplotlib plotting) are parameters of an
environment record.  The training loops are embedded as deterministic
interpreters that thread an explicit state (discriminator weights,
trainable flags, the `y_real` local variable, the last generated batch)
and produce a trace of observable events (clipping, critic updates,
generator updates, plot calls), aborting with an explicit error where the
Python code would raise (NameError for an unbound local, an exception
escaping a plotting call, an out-of-bounds data slice).
-/

namespace McNeuronModel

/-! ## Layers and weight clipping
`clip_weights` in `train.py` (lines 17-38) and `train_one_by_one.py`
(lines 17-39) clips every weight array of every layer with
`np.clip(w, weight_constraint[0], weight_constraint[1])`; the variant in
`train_one_by_one_morphology.py` (lines 17-39) only visits layers whose
name contains the substring `'dense'`. -/

structure Layer where
  name : List Char
  weights : List (List ℚ)
deriving DecidableEq

/-- Elementwise semantics of `np.clip(x, lo, hi)`:
`min(max(x, lo), hi)`. -/
def npClip (lo hi x : ℚ) : ℚ := min (max x lo) hi

/-- Clip every entry of every weight array of one layer
(the body `np.clip(w, c[0], c[1]) for w in weights`). -/
def clipLayer (lo hi : ℚ) (l : Layer) : Layer :=
  { l with weights := l.weights.map (fun w => w.map (npClip lo hi)) }

namespace Train

/-- `clip_weights(model, weight_constraint)` of `train.py` /
`train_one_by_one.py`: clips the weights of every layer. -/
def clip_weights (layers : List Layer) (wc : ℚ × ℚ) : List Layer :=
  layers.map (clipLayer wc.1 wc.2)

end Train

/-- Boolean prefix test on character lists. -/
def isPrefixOfB : List Char → List Char → Bool
  | [], _ => true
  | _ :: _, [] => false
  | a :: as, b :: bs => a == b && isPrefixOfB as bs

/-- Boolean substring test (Python `pat in s`). -/
def containsSub (pat : List Char) : List Char → Bool
  | [] => isPrefixOfB pat []
  | c :: rest => isPrefixOfB pat (c :: rest) || containsSub pat rest

def denseChars : List Char := ['d', 'e', 'n', 's', 'e']

namespace Morph

/-- `clip_weights(model, weight_constraint)` of
`train_one_by_one_morphology.py`: clips the weights of a layer only when
`'dense' in l.name`. -/
def clip_weights (layers : List Layer) (wc : ℚ × ℚ) : List Layer :=
  layers.map (fun l =>
    if containsSub denseChars l.name then clipLayer wc.1 wc.2 l else l)

end Morph

/-- Predicate: every weight entry of every layer lies in `[lo, hi]`. -/
def layersWithin (lo hi : ℚ) (ls : List Layer) : Prop :=
  ∀ l ∈ ls, ∀ w ∈ l.weights, ∀ x ∈ w, lo ≤ x ∧ x ≤ hi

instance (lo hi : ℚ) (ls : List Layer) : Decidable (layersWithin lo hi ls) := by
  unfold layersWithin
  infer_instance

/-! ## The conditioning composer
`discriminator_on_generators` of `models_joint_embedding.py`
(lines 489-600).  We embed the wiring of the stacked model symbolically:
tensors are expressions built from the stacked model's input placeholders
by applying one of the five network roles to a list of argument
tensors. -/

/-- The five network roles wired together by the composer. -/
inductive Role where
  | geom | condGeom | morph | condMorph | disc

/-- Symbolic tensor expressions: the stacked model's placeholders and
applications of a network role to argument tensors. -/
inductive NExpr where
  | priorGeom
  | priorMorph
  | noise
  | app (r : Role) (args : List NExpr)

/-- The wiring of the composed (stacked) model: which expression each
generator output and the discriminator score are. -/
structure Stacked where
  geometry_output : NExpr
  morphology_output : NExpr
  discriminator_output : NExpr
  inputs : List NExpr

namespace Models

/-- `discriminator_on_generators(...)` of `models_joint_embedding.py`,
lines 532-600, transcribed branch by branch.  A `conditioning_rule`
outside `{mgd, gmd}` leaves `geometry_output` unbound in the Python code
and raises `NameError` at the discriminator call; this is modelled as
`none`. -/
def discriminator_on_generators (conditioning_rule : String)
    (use_context : Bool) : Option Stacked :=
  if conditioning_rule = "mgd" then
    if use_context then
      let morphology_output :=
        NExpr.app .morph [.priorGeom, .priorMorph, .noise]
      let geometry_output :=
        NExpr.app .condGeom [.priorGeom, .priorMorph, .noise, morphology_output]
      some { geometry_output := geometry_output,
             morphology_output := morphology_output,
             discriminator_output :=
               NExpr.app .disc [geometry_output, morphology_output],
             inputs := [.priorGeom, .priorMorph, .noise] }
    else
      let morphology_output := NExpr.app .morph [.noise]
      let geometry_output := NExpr.app .condGeom [.noise, morphology_output]
      some { geometry_output := geometry_output,
             morphology_output := morphology_output,
             discriminator_output :=
               NExpr.app .disc [geometry_output, morphology_output],
             inputs := [.noise] }
  else if conditioning_rule = "gmd" then
    if use_context then
      let geometry_output :=
        NExpr.app .geom [.priorGeom, .priorMorph, .noise]
      let morphology_output :=
        NExpr.app .condMorph [.priorGeom, .priorMorph, .noise, geometry_output]
      some { geometry_output := geometry_output,
             morphology_output := morphology_output,
             discriminator_output :=
               NExpr.app .disc [geometry_output, morphology_output],
             inputs := [.priorGeom, .priorMorph, .noise] }
    else
      let geometry_output := NExpr.app .morph [.noise]
      let morphology_output := NExpr.app .condMorph [.noise, geometry_output]
      some { geometry_output := geometry_output,
             morphology_output := morphology_output,
             discriminator_output :=
               NExpr.app .disc [geometry_output, morphology_output],
             inputs := [.noise] }
  else
    none

end Models

/-! ## Training-loop interpreters: shared data model -/

/-- Run-wide configuration surface of `train_model` (both files; the
fields `rule`, `train_one_by_one` and `train_loss` only exist in
`train_one_by_one.py`). -/
structure Cfg where
  n_levels : Nat
  n_nodes : List Nat
  n_epochs : Nat
  batch_size : Nat
  n_batch_per_epoch : Nat
  d_iters : Nat
  weight_constraint : ℚ × ℚ
  verbose : Bool
  rule : String
  train_one_by_one : Bool
  train_loss : String

def Cfg.nodesAt (cfg : Cfg) (level : Nat) : Nat := cfg.n_nodes.getD level 0

/-- The `trainable` flags of the per-level models: unconditioned geometry,
conditional geometry, unconditioned morphology, conditional morphology,
discriminator.  (`train.py` only has `g`, `m`, `d`.) -/
structure Flags where
  g : Bool
  cg : Bool
  m : Bool
  cm : Bool
  d : Bool
deriving DecidableEq

/-- Freshly built keras models are trainable. -/
def Flags.fresh : Flags := ⟨true, true, true, true, true⟩

/-- All five trainable flags are set. -/
def Flags.allB (f : Flags) : Bool := f.g && f.cg && f.m && f.cm && f.d

/-- The external collaborators of the training loops.  Sample tensors are
lists of opaque sample identifiers (naturals). -/
structure Env where
  /-- initial weights of the level's discriminator (`models.discriminator`). -/
  initD : Nat → List Layer
  /-- `batch_utils.get_batch(training_data, batch_size, batch_counter, n_nodes)`
  of `train.py`: `(X_locations_real, X_prufer_real)` keyed by
  `(batch_counter, n_nodes)`. -/
  getBatch : Nat → Nat → List Nat × List Nat
  /-- `training_data['geometry']['n<k>']` of `train_one_by_one.py`,
  keyed by the node count `k`. -/
  dataGeom : Nat → List Nat
  /-- `batch_utils.get_batch(X_prufer_cut, batch_size, n_nodes)` of
  `train_one_by_one.py` applied to the morphology slice of
  `(level, batch_counter)`. -/
  getBatchP : Nat → Nat → List Nat
  /-- `batch_utils.gen_batch(...)` at a given level:
  `(X_locations_gen, X_prufer_gen)`. -/
  genBatch : Nat → List Nat × List Nat
  /-- effect of `d_model.train_on_batch([X_locations, X_prufer], y)` on the
  discriminator weights. -/
  updD : List Layer → List Nat → List Nat → List ℚ → List Layer
  /-- whether a call into the matplotlib/visualization collaborator raises. -/
  plotRaises : Bool

/-- Failures of a training run. -/
inductive RunErr where
  /-- a read of an unbound Python local (e.g. `y_real` with `d_iters=0`). -/
  | nameError
  /-- an exception escaping a plotting/visualization call. -/
  | plotError
  /-- a real-data slice beyond the end of the training data. -/
  | dataBoundsError
deriving DecidableEq

/-- Observable events of a training run. -/
inductive Event where
  /-- top of one iteration of the `while batch_counter < n_batch_per_epoch`
  loop, with the flags at that point. -/
  | iterStart (level bc : Nat) (flags : Flags)
  /-- one `clip_weights` application to the discriminator. -/
  | clipD (level bc : Nat)
  /-- one `d_model.train_on_batch([X_locations, X_prufer], y)` call; records
  the concatenated batch, the labels, and the (just clipped) weights the
  update starts from. -/
  | trainD (level bc : Nat) (xloc xpru : List Nat) (y : List ℚ)
      (postClip : List Layer)
  /-- one stacked-model `train_on_batch(..., y_real)` call; records the
  target and the flags in force during the update. -/
  | trainG (level bc : Nat) (target : List ℚ) (flags : Flags)
  /-- one successful every-25-batches plotting call. -/
  | plot (level epoch bc : Nat)
deriving DecidableEq

def eventLevel : Event → Nat
  | .iterStart level _ _ => level
  | .clipD level _ => level
  | .trainD level _ _ _ _ _ => level
  | .trainG level _ _ _ => level
  | .plot level _ _ => level

def isTrainD : Event → Bool
  | .trainD _ _ _ _ _ _ => true
  | _ => false

def isTrainG : Event → Bool
  | .trainG _ _ _ _ => true
  | _ => false

def isTrainGAt (l : Nat) : Event → Bool
  | .trainG level _ _ _ => level == l
  | _ => false

def isPlot : Event → Bool
  | .plot _ _ _ => true
  | _ => false

/-- Mutable state threaded through a run: the current level's
discriminator weights, the trainable flags, and the function-scope Python
locals `y_real` and `(X_locations_gen, X_prufer_gen)` (unbound until first
assigned, and persisting across iterations, epochs and levels). -/
structure St where
  dLayers : List Layer
  flags : Flags
  yReal : Option (List ℚ)
  lastGen : Option (List Nat × List Nat)
deriving DecidableEq

/-- Result of (part of) a run: final state, emitted events, and the error
that aborted it, if any. -/
structure RunRes where
  st : St
  tr : List Event
  err : Option RunErr
deriving DecidableEq

/-- Sequencing: run `f` from the result state unless an error already
occurred. -/
def andThen (r : RunRes) (f : St → RunRes) : RunRes :=
  match r.err with
  | some _ => r
  | none =>
      let r2 := f r.st
      ⟨r2.st, r.tr ++ r2.tr, r2.err⟩

/-- Fold a step function over loop indices, stopping at the first
error. -/
def runFold (f : St → Nat → RunRes) : St → List Nat → RunRes
  | st, [] => ⟨st, [], none⟩
  | st, i :: is => andThen (f st i) (fun s => runFold f s is)

/-! ## Interpreter for `train.py`'s `train_model` (lines 75-352) -/

namespace TrainPy

variable (cfg : Cfg) (env : Env)

/-- One iteration of `for d_iter in range(d_iters)` (lines 234-275): clip
the discriminator, draw the real batch via `batch_utils.get_batch`, set
`y_real` to `-ones`, draw the generated batch via `batch_utils.gen_batch`,
set `y_gen` to `+ones`, concatenate real-then-generated, and update the
discriminator. -/
def dIterStep (level bc : Nat) (st : St) : RunRes :=
  let clipped := Train.clip_weights st.dLayers cfg.weight_constraint
  let rb := env.getBatch bc (cfg.nodesAt level)
  let yReal : List ℚ := List.replicate rb.1.length (-1)
  let gb := env.genBatch level
  let yGen : List ℚ := List.replicate gb.1.length 1
  let xloc := rb.1 ++ gb.1
  let xpru := rb.2 ++ gb.2
  let y := yReal ++ yGen
  ⟨{ st with dLayers := env.updD clipped xloc xpru y,
             yReal := some yReal,
             lastGen := some gb },
   [Event.clipD level bc, Event.trainD level bc xloc xpru y clipped],
   none⟩

/-- Step 2 (lines 285-316): freeze the discriminator, one stacked-model
update against target `y_real` (NameError if `y_real` was never
assigned), unfreeze the discriminator. -/
def genStep (level bc : Nat) (st : St) : RunRes :=
  let f1 := { st.flags with d := false }
  match st.yReal with
  | none => ⟨{ st with flags := f1 }, [], some RunErr.nameError⟩
  | some y =>
      ⟨{ st with flags := { f1 with d := true } },
       [Event.trainG level bc y f1],
       none⟩

/-- Step 3, housekeeping (lines 318-350): increment the batch counter;
every 25 batches, when verbose, call the plotting collaborator
(`plot_example_neuron` on the last generated batch, then `plt.show()`) —
an exception there propagates. -/
def houseStep (level e bc : Nat) (st : St) : RunRes :=
  if (bc + 1) % 25 == 0 && cfg.verbose then
    match st.lastGen with
    | none => ⟨st, [], some RunErr.nameError⟩
    | some _ =>
        if env.plotRaises then ⟨st, [], some RunErr.plotError⟩
        else ⟨st, [Event.plot level e (bc + 1)], none⟩
  else ⟨st, [], none⟩

/-- One iteration of the `while batch_counter < n_batch_per_epoch` loop
(lines 228-350). -/
def outerIter (level e bc : Nat) (st : St) : RunRes :=
  andThen ⟨st, [Event.iterStart level bc st.flags], none⟩ (fun st0 =>
  andThen (runFold (fun s _ => dIterStep cfg env level bc s) st0
            (List.range cfg.d_iters)) (fun st1 =>
  andThen (genStep level bc st1) (fun st2 =>
  houseStep cfg env level e bc st2)))

/-- One epoch (lines 219-350): `batch_counter` starts at 1 and the loop
body runs while `batch_counter < n_batch_per_epoch`, so the `i`-th
iteration (0-based) has `batch_counter = i + 1`. -/
def epochRun (level e : Nat) (st : St) : RunRes :=
  runFold (fun s i => outerIter cfg env level e (i + 1) s) st
    (List.range (cfg.n_batch_per_epoch - 1))

/-- One level (lines 195-350): fresh per-level models (all trainable; the
compile sequence toggles `d_model.trainable` to `False` and back to
`True`), then the epoch loop. -/
def levelRun (level : Nat) (st : St) : RunRes :=
  let st0 := { st with dLayers := env.initD level, flags := Flags.fresh }
  runFold (fun s e => epochRun cfg env level e s) st0 (List.range cfg.n_epochs)

def initSt : St :=
  { dLayers := [], flags := Flags.fresh, yReal := none, lastGen := none }

/-- `train_model` of `train.py`: the level loop. -/
def train_model : RunRes :=
  runFold (fun s l => levelRun cfg env l s) initSt (List.range cfg.n_levels)

end TrainPy

/-! ## Interpreter for `train_one_by_one.py`'s `train_model`
(lines 98-503) -/

namespace TrainObo

variable (cfg : Cfg) (env : Env)

/-- The real geometry slice
`training_data['geometry']['n<k>'][(bc-1)*bs : bc*bs]` (lines 304-307). -/
def realLoc (level bc : Nat) : List Nat :=
  ((env.dataGeom (cfg.nodesAt level)).drop
    ((bc - 1) * cfg.batch_size)).take cfg.batch_size

/-- One iteration of `for d_iter in range(d_iters)` (lines 298-357).  The
real geometry batch is the explicit slice
`training_data['geometry']['n<k>'][(bc-1)*bs : bc*bs]` (an out-of-range
fancy index raises); the real morphology batch goes through the external
`batch_utils.get_batch`.  `y_real = -ones`, `y_gen = +ones` regardless of
`train_loss` (the cross-entropy label branch is commented out). -/
def dIterStep (level bc : Nat) (st : St) : RunRes :=
  let clipped := Train.clip_weights st.dLayers cfg.weight_constraint
  let data := env.dataGeom (cfg.nodesAt level)
  if bc * cfg.batch_size ≤ data.length then
    let xlocReal := realLoc cfg env level bc
    let xpruReal := env.getBatchP level bc
    let yReal : List ℚ := List.replicate xlocReal.length (-1)
    let gb := env.genBatch level
    let yGen : List ℚ := List.replicate gb.1.length 1
    let xloc := xlocReal ++ gb.1
    let xpru := xpruReal ++ gb.2
    let y := yReal ++ yGen
    ⟨{ st with dLayers := env.updD clipped xloc xpru y,
               yReal := some yReal,
               lastGen := some gb },
     [Event.clipD level bc, Event.trainD level bc xloc xpru y clipped],
     none⟩
  else
    ⟨st, [], some RunErr.dataBoundsError⟩

/-- Alternation freeze (lines 370-384): in the first half of a 20-step
cycle freeze the conditioned generator of the active rule, in the second
half freeze the unconditioned one. -/
def freezeAlt (rule : String) (bc : Nat) (f : Flags) : Flags :=
  if bc % 20 < 10 then
    if rule = "mgd" then { f with cg := false }
    else if rule = "gmd" then { f with cm := false }
    else f
  else
    if rule = "mgd" then { f with g := false }
    else if rule = "gmd" then { f with m := false }
    else f

/-- Alternation unfreeze (lines 416-430): sets the same flag back to
`True` (the batch counter is unchanged in between). -/
def unfreezeAlt (rule : String) (bc : Nat) (f : Flags) : Flags :=
  if bc % 20 < 10 then
    if rule = "mgd" then { f with cg := true }
    else if rule = "gmd" then { f with cm := true }
    else f
  else
    if rule = "mgd" then { f with g := true }
    else if rule = "gmd" then { f with m := true }
    else f

/-- Step 2 (lines 364-433): freeze the discriminator, optionally freeze
one generator role per the alternation schedule, one stacked-model update
against `y_real`, then restore the frozen generator role and the
discriminator. -/
def genStep (level bc : Nat) (st : St) : RunRes :=
  let f1 := { st.flags with d := false }
  let f2 := if cfg.train_one_by_one then freezeAlt cfg.rule bc f1 else f1
  match st.yReal with
  | none => ⟨{ st with flags := f2 }, [], some RunErr.nameError⟩
  | some y =>
      let f3 := if cfg.train_one_by_one then unfreezeAlt cfg.rule bc f2 else f2
      ⟨{ st with flags := { f3 with d := true } },
       [Event.trainG level bc y f2],
       none⟩

/-- Step 3, housekeeping (lines 435-496): increment the batch counter;
every 25 batches, when verbose, plot the last generated sample (an
exception propagates); then, when verbose, plot the loss trace
(lines 485-488; an exception there also propagates). -/
def houseStep (level e bc : Nat) (st : St) : RunRes :=
  andThen
    (if (bc + 1) % 25 == 0 && cfg.verbose then
       match st.lastGen with
       | none => ⟨st, [], some RunErr.nameError⟩
       | some _ =>
           if env.plotRaises then ⟨st, [], some RunErr.plotError⟩
           else ⟨st, [Event.plot level e (bc + 1)], none⟩
     else ⟨st, [], none⟩)
    (fun st1 =>
      if cfg.verbose && env.plotRaises then ⟨st1, [], some RunErr.plotError⟩
      else ⟨st1, [], none⟩)

/-- One iteration of the `while batch_counter < n_batch_per_epoch` loop
(lines 292-496). -/
def outerIter (level e bc : Nat) (st : St) : RunRes :=
  andThen ⟨st, [Event.iterStart level bc st.flags], none⟩ (fun st0 =>
  andThen (runFold (fun s _ => dIterStep cfg env level bc s) st0
            (List.range cfg.d_iters)) (fun st1 =>
  andThen (genStep cfg level bc st1) (fun st2 =>
  houseStep cfg env level e bc st2)))

/-- One epoch (lines 283-496): `batch_counter` starts at 1, loop while
`batch_counter < n_batch_per_epoch`. -/
def epochRun (level e : Nat) (st : St) : RunRes :=
  runFold (fun s i => outerIter cfg env level e (i + 1) s) st
    (List.range (cfg.n_batch_per_epoch - 1))

/-- One level (lines 241-496): fresh per-level models, compile sequence
leaves every trainable flag `True`, then the epoch loop. -/
def levelRun (level : Nat) (st : St) : RunRes :=
  let st0 := { st with dLayers := env.initD level, flags := Flags.fresh }
  runFold (fun s e => epochRun cfg env level e s) st0 (List.range cfg.n_epochs)

def initSt : St :=
  { dLayers := [], flags := Flags.fresh, yReal := none, lastGen := none }

/-- `train_model` of `train_one_by_one.py`: the level loop. -/
def train_model : RunRes :=
  runFold (fun s l => levelRun cfg env l s) initSt (List.range cfg.n_levels)

end TrainObo

/-! ## Trace statistics, spec-side predicates, and concrete fixtures -/

def countTrainD (tr : List Event) : Nat := (tr.filter isTrainD).length

def countTrainG (tr : List Event) : Nat := (tr.filter isTrainG).length

def countPlot (tr : List Event) : Nat := (tr.filter isPlot).length

def countTrainGAt (l : Nat) (tr : List Event) : Nat :=
  (tr.filter (isTrainGAt l)).length

/-- Every critic update starts from weights within `[lo, hi]` (the
recorded post-clip snapshot is in bounds). -/
def trainDPostClipWithin (lo hi : ℚ) : Event → Prop
  | .trainD _ _ _ _ _ cl => layersWithin lo hi cl
  | _ => True

/-- Transcription of claim C3's schedule (the spec side): at a generator
update in the first half of a 20-step cycle, only the conditional role of
the active rule receives gradient updates — its flag is still true and
the unconditioned role's flag is false. -/
def specC3FirstHalfTrainsConditionalB (rule : String) : Event → Bool
  | .trainG _ bc _ f =>
      if bc % 20 < 10 then
        (if rule = "mgd" then f.cg && !f.g else true)
          && (if rule = "gmd" then f.cm && !f.m else true)
      else true
  | _ => true

/-- Transcription of claim C4's cross-entropy labeling (the spec side):
every critic-batch label is 0 or 1. -/
def specC4ZeroOneLabelsB : Event → Bool
  | .trainD _ _ _ _ y _ => y.all (fun x => x == 0 || x == 1)
  | _ => true

/-- Concrete model with one LSTM layer holding an out-of-bounds weight,
used to exhibit that the morphology `clip_weights` skips non-dense
layers. -/
def lstmLayer5 : Layer := ⟨['l', 's', 't', 'm', '_', '1'], [[5]]⟩

/-- Concrete dense layer used as witness input. -/
def denseLayer3 : Layer := ⟨['d', 'e', 'n', 's', 'e', '_', '1'], [[3, -2]]⟩

def dLayer0 : Layer := ⟨['d', 'e', 'n', 's', 'e', '_', '1'], [[0]]⟩

def dLayer7 : Layer := ⟨['d', 'e', 'n', 's', 'e', '_', '1'], [[7]]⟩

/-- Concrete environment: batches of four opaque samples, an update
collaborator that sets the single discriminator weight to 7 (outside the
clip interval `[-1, 1]`), and a plotting collaborator that does not
raise. -/
def envA : Env :=
  { initD := fun _ => [dLayer0],
    getBatch := fun _ _ => ([0, 1, 2, 3], [4, 5, 6, 7]),
    dataGeom := fun _ => [0, 1, 2, 3, 4, 5, 6, 7],
    getBatchP := fun _ _ => [10, 11, 12, 13],
    genBatch := fun _ => ([20, 21, 22, 23], [30, 31, 32, 33]),
    updD := fun _ _ _ _ => [dLayer7],
    plotRaises := false }

/-- Like `envA` but with singleton batches and a plotting collaborator
that raises. -/
def envRaise : Env :=
  { envA with
    getBatch := fun _ _ => ([0], [1]),
    genBatch := fun _ => ([2], [3]),
    plotRaises := true }

/-- Configuration of the claim C2 end-to-end scenario. -/
def cfgC2 : Cfg :=
  { n_levels := 1, n_nodes := [5], n_epochs := 1, batch_size := 4,
    n_batch_per_epoch := 2, d_iters := 1, weight_constraint := (-1, 1),
    verbose := true, rule := "mgd", train_one_by_one := false,
    train_loss := "wasserstein_loss" }

/-- Configuration reaching the every-25-batches plotting step. -/
def cfgC6 : Cfg :=
  { cfgC2 with batch_size := 1, n_epochs := 2, n_batch_per_epoch := 25 }

/-- Configuration with the alternation toggle on. -/
def cfgC3 : Cfg := { cfgC2 with train_one_by_one := true, verbose := false }

/-- Configuration selecting the cross-entropy loss. -/
def cfgC4 : Cfg :=
  { cfgC2 with train_loss := "binary_crossentropy", verbose := false }

/-! ## Generic lemmas about `andThen` and `runFold` -/

theorem andThen_of_err {r : RunRes} {f : St → RunRes} {e : RunErr}
    (he : r.err = some e) : andThen r f = r := by
  unfold andThen
  rw [he]

theorem andThen_of_ok {r : RunRes} {f : St → RunRes}
    (he : r.err = none) :
    andThen r f = ⟨(f r.st).st, r.tr ++ (f r.st).tr, (f r.st).err⟩ := by
  unfold andThen
  rw [he]

theorem andThen_err_none {r : RunRes} {f : St → RunRes}
    (h : (andThen r f).err = none) : r.err = none ∧ (f r.st).err = none := by
  cases he : r.err with
  | some e => rw [andThen_of_err he] at h; rw [he] at h; cases h
  | none => rw [andThen_of_ok he] at h; exact ⟨rfl, h⟩

/-- Soundness of sequencing: a state invariant and an event property are
preserved through `andThen`. -/
theorem andThen_sound {Inv : St → Prop} {P : Event → Prop}
    (r : RunRes) (f : St → RunRes)
    (h1inv : r.err = none → Inv r.st)
    (h1ev : ∀ ev ∈ r.tr, P ev)
    (h2 : ∀ s, Inv s →
      (((f s).err = none → Inv (f s).st) ∧ ∀ ev ∈ (f s).tr, P ev)) :
    ((andThen r f).err = none → Inv (andThen r f).st) ∧
      ∀ ev ∈ (andThen r f).tr, P ev := by
  cases he : r.err with
  | some e =>
      rw [andThen_of_err he]
      exact ⟨fun h => h1inv h, h1ev⟩
  | none =>
      rw [andThen_of_ok he]
      have hInv := h1inv he
      refine ⟨fun h => (h2 r.st hInv).1 h, ?_⟩
      intro ev hev
      rcases List.mem_append.mp hev with h' | h'
      · exact h1ev ev h'
      · exact (h2 r.st hInv).2 ev h'

/-- Soundness of `runFold`: a state invariant and an event property are
preserved through a whole loop. -/
theorem runFold_sound {Inv : St → Prop} {P : Event → Prop}
    (f : St → Nat → RunRes) (is : List Nat) (st : St) (hInv : Inv st)
    (hstep : ∀ s i, i ∈ is → Inv s →
      (((f s i).err = none → Inv (f s i).st) ∧ ∀ ev ∈ (f s i).tr, P ev)) :
    (((runFold f st is).err = none → Inv (runFold f st is).st) ∧
      ∀ ev ∈ (runFold f st is).tr, P ev) := by
  revert hstep
  induction is generalizing st with
  | nil => exact fun _ => ⟨fun _ => hInv, by intro ev hev; cases hev⟩
  | cons i is ih =>
      intro hstep
      rw [runFold]
      refine andThen_sound (f st i) _ ?_ ?_ ?_
      · exact fun h => (hstep st i (List.mem_cons_self i is) hInv).1 h
      · exact (hstep st i (List.mem_cons_self i is) hInv).2
      · intro s hs
        exact ih s hs (fun s' i' hi' => hstep s' i' (List.mem_cons_of_mem i hi'))

/-- Event property alone (no state invariant). -/
theorem runFold_events {P : Event → Prop}
    (f : St → Nat → RunRes) (is : List Nat) (st : St)
    (hstep : ∀ s i, i ∈ is → ∀ ev ∈ (f s i).tr, P ev) :
    ∀ ev ∈ (runFold f st is).tr, P ev :=
  (@runFold_sound (fun _ => True) P f is st trivial
    (fun s i hi _ => ⟨fun _ => trivial, hstep s i hi⟩)).2

/-- Counting events through an error-free loop: if the `i`-th iteration
contributes `c i` events satisfying `p`, the whole loop contributes the
sum. -/
theorem runFold_count (f : St → Nat → RunRes) (p : Event → Bool)
    (c : Nat → Nat) (is : List Nat) (st : St)
    (hstep : ∀ s i, i ∈ is → (f s i).err = none →
      ((f s i).tr.filter p).length = c i)
    (hok : (runFold f st is).err = none) :
    ((runFold f st is).tr.filter p).length = (is.map c).sum := by
  revert hstep hok
  induction is generalizing st with
  | nil => intro _ _; rfl
  | cons i is ih =>
      intro hstep hok
      rw [runFold] at hok ⊢
      have h2 := andThen_err_none hok
      rw [andThen_of_ok h2.1] at hok ⊢
      have hg : (runFold f (f st i).st is).err = none := hok
      have h1 := hstep st i (List.mem_cons_self i is) h2.1
      have h3 := ih (f st i).st
        (fun s' i' hi' => hstep s' i' (List.mem_cons_of_mem i hi')) hg
      simp only [List.filter_append, List.length_append, List.map_cons,
        List.sum_cons]
      rw [h1, h3]

/-- Every event of a loop whose `i`-th iteration emits only level-`i`
events has a level from the index list. -/
theorem runFold_level_mem (f : St → Nat → RunRes) (is : List Nat) (st : St)
    (h : ∀ s i, i ∈ is → ∀ ev ∈ (f s i).tr, eventLevel ev = i) :
    ∀ ev ∈ (runFold f st is).tr, ∃ j ∈ is, eventLevel ev = j :=
  runFold_events f is st
    (fun s i hi ev hev => ⟨i, hi, h s i hi ev hev⟩)

/-- A loop whose `i`-th iteration emits only level-`i` events, run over an
increasing index list, emits a trace with non-decreasing event levels. -/
theorem runFold_level_pairwise (f : St → Nat → RunRes) (is : List Nat)
    (st : St)
    (h : ∀ s i, ∀ ev ∈ (f s i).tr, eventLevel ev = i)
    (hsort : List.Pairwise (· ≤ ·) is) :
    (runFold f st is).tr.Pairwise
      (fun a b => eventLevel a ≤ eventLevel b) := by
  induction is generalizing st with
  | nil => exact List.Pairwise.nil
  | cons i is ih =>
      rw [runFold]
      have hall : ∀ ev ∈ (f st i).tr,
          eventLevel ev = i := h st i
      cases he : (f st i).err with
      | some e =>
          rw [andThen_of_err he]
          exact List.pairwise_of_forall_mem_list
            (fun a ha b hb => by rw [hall a ha, hall b hb])
      | none =>
          rw [andThen_of_ok he]
          have hrest := ih (f st i).st (List.pairwise_cons.mp hsort).2
          refine List.pairwise_append.mpr ⟨?_, hrest, ?_⟩
          · exact List.pairwise_of_forall_mem_list
              (fun a ha b hb => by rw [hall a ha, hall b hb])
          · intro a ha b hb
            obtain ⟨j, hj, hbj⟩ :=
              runFold_level_mem f is (f st i).st
                (fun s i' hi' => h s i') b hb
            rw [hall a ha, hbj]
            exact (List.pairwise_cons.mp hsort).1 j hj

/-- Event property alone through `andThen`. -/
theorem andThen_events {P : Event → Prop} (r : RunRes) (f : St → RunRes)
    (h1 : ∀ ev ∈ r.tr, P ev) (h2 : ∀ s, ∀ ev ∈ (f s).tr, P ev) :
    ∀ ev ∈ (andThen r f).tr, P ev :=
  (@andThen_sound (fun _ => True) P r f (fun _ => trivial) h1
    (fun s _ => ⟨fun _ => trivial, h2 s⟩)).2

/-! ## Soundness of the `train.py` interpreter -/

namespace TrainPy

/-- Master soundness lemma for `train.py`'s `train_model`: any state
invariant preserved by the three phases and any property of the emitted
events hold of the whole run. -/
theorem train_model_sound_py (cfg : Cfg) (env : Env)
    {Inv : St → Prop} {P : Event → Prop}
    (hInit : Inv initSt)
    (hReset : ∀ s level, Inv s →
      Inv { s with dLayers := env.initD level, flags := Flags.fresh })
    (hD : ∀ s level bc, 1 ≤ bc → Inv s →
      (((dIterStep cfg env level bc s).err = none →
          Inv (dIterStep cfg env level bc s).st)
        ∧ ∀ ev ∈ (dIterStep cfg env level bc s).tr, P ev))
    (hG : ∀ s level bc, 1 ≤ bc → Inv s →
      (((genStep level bc s).err = none → Inv (genStep level bc s).st)
        ∧ ∀ ev ∈ (genStep level bc s).tr, P ev))
    (hH : ∀ s level e bc, 1 ≤ bc → Inv s →
      (((houseStep cfg env level e bc s).err = none →
          Inv (houseStep cfg env level e bc s).st)
        ∧ ∀ ev ∈ (houseStep cfg env level e bc s).tr, P ev))
    (hI : ∀ s level bc, Inv s → P (Event.iterStart level bc s.flags)) :
    (((train_model cfg env).err = none → Inv (train_model cfg env).st)
      ∧ ∀ ev ∈ (train_model cfg env).tr, P ev) := by
  have houter : ∀ s level e bc, 1 ≤ bc → Inv s →
      (((outerIter cfg env level e bc s).err = none →
          Inv (outerIter cfg env level e bc s).st)
        ∧ ∀ ev ∈ (outerIter cfg env level e bc s).tr, P ev) := by
    intro s level e bc hbc hs
    unfold outerIter
    refine andThen_sound _ _ (fun _ => hs) ?_ ?_
    · intro ev hev
      rcases List.mem_singleton.mp hev with rfl
      exact hI s level bc hs
    · intro s0 hs0
      refine andThen_sound _ _ ?_ ?_ ?_
      · intro h
        exact (runFold_sound _ _ s0 hs0
          (fun s' i _ hs' => hD s' level bc hbc hs')).1 h
      · exact (runFold_sound _ _ s0 hs0
          (fun s' i _ hs' => hD s' level bc hbc hs')).2
      · intro s1 hs1
        refine andThen_sound _ _ ?_ ?_ ?_
        · exact (hG s1 level bc hbc hs1).1
        · exact (hG s1 level bc hbc hs1).2
        · intro s2 hs2
          exact hH s2 level e bc hbc hs2
  have hepoch : ∀ s level e, Inv s →
      (((epochRun cfg env level e s).err = none →
          Inv (epochRun cfg env level e s).st)
        ∧ ∀ ev ∈ (epochRun cfg env level e s).tr, P ev) := by
    intro s level e hs
    exact runFold_sound _ _ s hs
      (fun s' i _ hs' => houter s' level e (i + 1) (Nat.le_add_left 1 i) hs')
  have hlevel : ∀ s level, Inv s →
      (((levelRun cfg env level s).err = none →
          Inv (levelRun cfg env level s).st)
        ∧ ∀ ev ∈ (levelRun cfg env level s).tr, P ev) := by
    intro s level hs
    unfold levelRun
    exact runFold_sound _ _ _ (hReset s level hs)
      (fun s' e _ hs' => hepoch s' level e hs')
  exact runFold_sound _ _ initSt hInit (fun s l _ hs => hlevel s l hs)

end TrainPy

/-! ## Lemmas about weight clipping -/

theorem npClip_mem (lo hi x : ℚ) (h : lo ≤ hi) :
    lo ≤ npClip lo hi x ∧ npClip lo hi x ≤ hi := by
  unfold npClip
  exact ⟨le_min (le_max_right x lo) h, min_le_right _ _⟩

theorem npClip_idem (lo hi x : ℚ) :
    npClip lo hi (npClip lo hi x) = npClip lo hi x := by
  unfold npClip
  rcases le_total (max x lo) hi with h | h
  · rw [min_eq_left h, max_assoc, max_self, min_eq_left h]
  · rw [min_eq_right h, min_eq_right (le_max_left hi lo)]

theorem map_npClip_idem (lo hi : ℚ) (w : List ℚ) :
    (w.map (npClip lo hi)).map (npClip lo hi) = w.map (npClip lo hi) := by
  induction w with
  | nil => rfl
  | cons a w ih => simp [npClip_idem, ih]

theorem clipLayer_idem (lo hi : ℚ) (l : Layer) :
    clipLayer lo hi (clipLayer lo hi l) = clipLayer lo hi l := by
  unfold clipLayer
  simp only [List.map_map]
  congr 1
  refine List.map_congr_left (fun w _ => ?_)
  simp only [Function.comp]
  exact map_npClip_idem lo hi w

theorem clipLayer_name (lo hi : ℚ) (l : Layer) :
    (clipLayer lo hi l).name = l.name := rfl

theorem clipLayer_within (lo hi : ℚ) (l : Layer) (h : lo ≤ hi) :
    ∀ w ∈ (clipLayer lo hi l).weights, ∀ x ∈ w, lo ≤ x ∧ x ≤ hi := by
  intro w hw x hx
  simp only [clipLayer, List.mem_map] at hw
  obtain ⟨w0, _, rfl⟩ := hw
  simp only [List.mem_map] at hx
  obtain ⟨x0, _, rfl⟩ := hx
  exact npClip_mem lo hi x0 h

/-- After `train.py`'s `clip_weights`, every parameter of every layer lies
in the constraint interval. -/
theorem clip_weights_within (ls : List Layer) (lo hi : ℚ) (h : lo ≤ hi) :
    layersWithin lo hi (Train.clip_weights ls (lo, hi)) := by
  intro l hl
  simp only [Train.clip_weights, List.mem_map] at hl
  obtain ⟨l0, _, rfl⟩ := hl
  exact clipLayer_within lo hi l0 h

/-- `train.py`'s `clip_weights` is idempotent. -/
theorem clip_weights_idem (ls : List Layer) (wc : ℚ × ℚ) :
    Train.clip_weights (Train.clip_weights ls wc) wc
      = Train.clip_weights ls wc := by
  unfold Train.clip_weights
  simp only [List.map_map]
  exact List.map_congr_left (fun l _ => clipLayer_idem wc.1 wc.2 l)

/-- The morphology variant is idempotent as well. -/
theorem morph_clip_weights_idem (ls : List Layer) (wc : ℚ × ℚ) :
    Morph.clip_weights (Morph.clip_weights ls wc) wc
      = Morph.clip_weights ls wc := by
  unfold Morph.clip_weights
  simp only [List.map_map]
  refine List.map_congr_left (fun l _ => ?_)
  simp only [Function.comp]
  by_cases hd : containsSub denseChars l.name
  · simp [hd, clipLayer_name, clipLayer_idem]
  · simp [hd]

/-- After the morphology variant, layers whose name contains `'dense'`
are within bounds. -/
theorem morph_clip_weights_dense_within (ls : List Layer) (lo hi : ℚ)
    (h : lo ≤ hi) :
    ∀ l ∈ Morph.clip_weights ls (lo, hi),
      containsSub denseChars l.name = true →
        ∀ w ∈ l.weights, ∀ x ∈ w, lo ≤ x ∧ x ≤ hi := by
  intro l hl hdense
  simp only [Morph.clip_weights, List.mem_map] at hl
  obtain ⟨l0, _, rfl⟩ := hl
  by_cases hd : containsSub denseChars l0.name
  · simp only [hd, if_true]
    exact clipLayer_within lo hi l0 h
  · rw [if_neg hd] at hdense ⊢
    exact absurd hdense (by simp [hd])

/-! ## Claim theorems -/

/-- Claim C1 (code bug): the claim requires that under `gmd`, for every
`use_context` setting, the geometry output is produced by the geometry
generator.  In `models_joint_embedding.py` the `gmd` / `use_context=False`
branch (line 577) instead wires `morphology_model([noise_input])` as the
`geometry_output` — contradicting the function's own docstring and inline
comment (`'gmd': P(m|g)P(g)`, "Condition morphology on geometry") — while
the `gmd` / `use_context=True` branch correctly uses `geometry_model`.
This theorem evaluates the embedded composer at the failing input and, for
contrast, at the context-using input. -/
theorem C1_composer_gmd_no_context_wires_morphology_model :
    (Models.discriminator_on_generators "gmd" false).map
        Stacked.geometry_output
      = some (NExpr.app Role.morph [NExpr.noise])
    ∧ (Models.discriminator_on_generators "gmd" true).map
        Stacked.geometry_output
      = some (NExpr.app Role.geom
          [NExpr.priorGeom, NExpr.priorMorph, NExpr.noise]) :=
  ⟨rfl, rfl⟩

/-- Claim C5 counterexample: `clip_weights` of
`train_one_by_one_morphology.py` only visits layers whose name contains
`'dense'`, so after applying it with bounds `[0, 1]` to a model with an
LSTM layer holding weight `5`, a parameter remains outside `[0, 1]`,
refuting "after one application every discriminator parameter lies in
`[a, b]`" for that cited implementation. -/
theorem C5_cex_morphology_clip_misses_lstm_layer :
    ¬ layersWithin 0 1 (Morph.clip_weights [lstmLayer5] (0, 1)) := by
  decide

/-- Claim C5 (amended): `train.py`'s (and `train_one_by_one.py`'s)
`clip_weights` replaces each element of every layer's weight tensors with
`min(max(element, a), b)`, so after one application every parameter lies
in `[a, b]` (for `a ≤ b`) and a second application changes nothing; the
`train_one_by_one_morphology.py` variant applies the same replacement
only to layers whose name contains `'dense'` (those end up in bounds, and
it is also idempotent), leaving other layers' parameters untouched. -/
theorem C5_clip_weights_bounds_and_idempotence (ls : List Layer) (a b : ℚ)
    (h : a ≤ b) :
    Train.clip_weights ls (a, b)
        = ls.map (fun l =>
            { l with weights :=
                l.weights.map (fun w => w.map (fun x => min (max x a) b)) })
      ∧ layersWithin a b (Train.clip_weights ls (a, b))
      ∧ Train.clip_weights (Train.clip_weights ls (a, b)) (a, b)
          = Train.clip_weights ls (a, b)
      ∧ Morph.clip_weights (Morph.clip_weights ls (a, b)) (a, b)
          = Morph.clip_weights ls (a, b)
      ∧ ∀ l ∈ Morph.clip_weights ls (a, b),
          containsSub denseChars l.name = true →
            ∀ w ∈ l.weights, ∀ x ∈ w, a ≤ x ∧ x ≤ b :=
  ⟨rfl, clip_weights_within ls a b h, clip_weights_idem ls (a, b),
    morph_clip_weights_idem ls (a, b),
    morph_clip_weights_dense_within ls a b h⟩

/-- Claim C5 witness: the amended clipping theorem applied at a concrete
model and concrete bounds `[-1, 1]`. -/
theorem C5_clip_weights_witness :
    (-1 : ℚ) ≤ 1
      ∧ layersWithin (-1) 1 (Train.clip_weights [denseLayer3] (-1, 1)) :=
  ⟨by decide,
    (C5_clip_weights_bounds_and_idempotence [denseLayer3] (-1) 1
      (by decide)).2.1⟩

/-- Claim C2 counterexample: with `n_levels=1`, `batch_size=4`,
`d_iters=1`, `n_epochs=1`, `n_batch_per_epoch=2` (and a concrete
environment whose weight update moves the single discriminator weight to
7), the run does NOT perform 2 critic and 2 generator updates with final
weights inside the clip bounds: the `while batch_counter <
n_batch_per_epoch` loop (counter starting at 1) runs only once, giving one
update of each, and the final weights — updated after the last clip — are
outside the bounds. -/
theorem C2_cex_two_updates_and_final_bounds :
    ¬ (countTrainD (TrainPy.train_model cfgC2 envA).tr = 2
        ∧ countTrainG (TrainPy.train_model cfgC2 envA).tr = 2
        ∧ layersWithin (-1) 1 (TrainPy.train_model cfgC2 envA).st.dLayers) := by
  decide

/-- Claim C2 (amended): with `n_levels=1`, `batch_size=4`, `d_iters=1`,
`n_epochs=1`, `n_batch_per_epoch=2`, for every environment the run
completes without raising, performs exactly 1 critic and 1 generator
`train_on_batch` update (the batch loop executes `n_batch_per_epoch - 1`
iterations), and every critic update starts from just-clipped weights
inside the configured clip bounds; the final weights, written by the last
(unclipped) update, need not stay within bounds. -/
theorem C2_amended_one_update_each_and_clipped_critic (env : Env) :
    (TrainPy.train_model cfgC2 env).err = none
      ∧ countTrainD (TrainPy.train_model cfgC2 env).tr = 1
      ∧ countTrainG (TrainPy.train_model cfgC2 env).tr = 1
      ∧ ∀ ev ∈ (TrainPy.train_model cfgC2 env).tr,
          trainDPostClipWithin (-1) 1 ev := by
  have h1 : List.range 1 = [0] := rfl
  simp only [TrainPy.train_model, TrainPy.levelRun, TrainPy.epochRun,
    TrainPy.outerIter, TrainPy.dIterStep, TrainPy.genStep,
    TrainPy.houseStep, TrainPy.initSt, cfgC2, Cfg.nodesAt, Flags.fresh,
    runFold, andThen, h1, countTrainD, countTrainG, isTrainD, isTrainG,
    List.filter, List.range_zero, trainDPostClipWithin]
  norm_num [List.mem_cons, trainDPostClipWithin]
  exact clip_weights_within (env.initD 0) (-1) 1 (by norm_num)

/-- Claim C6 counterexample: with a plotting collaborator that raises and
a configuration reaching the every-25-batches housekeeping plot
(`n_batch_per_epoch = 25`, verbose), the run aborts — there is no
try/except around the plotting call in `train.py` (lines 326-339), so the
failure is not isolated or swallowed and training does not continue. -/
theorem C6_cex_plot_failure_not_swallowed :
    (TrainPy.train_model cfgC6 envRaise).err ≠ none := by
  decide

/-- Claim C6 (amended): an exception raised by the visualization
collaborator during the every-25-batches housekeeping plotting propagates
out of `train_model`: the run aborts with that error at the first
plotting attempt (after the 24 critic and 24 generator updates of the
first epoch), no plot event is recorded, and the second scheduled epoch
— which a non-aborted run would execute, for 48 updates total — never
runs. -/
theorem C6_amended_plot_failure_aborts :
    (TrainPy.train_model cfgC6 envRaise).err = some RunErr.plotError
      ∧ countTrainD (TrainPy.train_model cfgC6 envRaise).tr = 24
      ∧ countTrainG (TrainPy.train_model cfgC6 envRaise).tr = 24
      ∧ countPlot (TrainPy.train_model cfgC6 envRaise).tr = 0
      ∧ (TrainPy.train_model cfgC6 envA).err = none
      ∧ countTrainD (TrainPy.train_model cfgC6 envA).tr = 48 := by
  decide

/-- Claim C10: in `train.py`, `y_real` is only assigned inside the critic
loop (line 245).  Whenever critic iterations run (so in particular for
`d_iters ≥ 1`), every stacked-model (generator) update uses the defined
target `-ones((batch_size, 1, 1))` — provided the external
`batch_utils.get_batch` returns `batch_size` samples; and with
`d_iters = 0` and `n_batch_per_epoch > 1` the run aborts with an
unbound-variable error at the first generator update, having performed no
generator update at all. -/
theorem C10_generator_target_only_from_critic_loop (cfg : Cfg) (env : Env) :
    ((∀ bc n, ((env.getBatch bc n).1).length = cfg.batch_size) →
        ∀ ev ∈ (TrainPy.train_model cfg env).tr, ∀ level bc target f,
          ev = Event.trainG level bc target f →
            target = List.replicate cfg.batch_size (-1))
      ∧ (cfg.d_iters = 0 → 2 ≤ cfg.n_batch_per_epoch →
          1 ≤ cfg.n_levels → 1 ≤ cfg.n_epochs →
            (TrainPy.train_model cfg env).err = some RunErr.nameError
              ∧ countTrainG (TrainPy.train_model cfg env).tr = 0) := by
  constructor
  · intro hlen
    refine (@TrainPy.train_model_sound_py cfg env
      (fun s => s.yReal = none
        ∨ s.yReal = some (List.replicate cfg.batch_size (-1)))
      (fun ev => ∀ level bc target f,
        ev = Event.trainG level bc target f →
          target = List.replicate cfg.batch_size (-1))
      (Or.inl rfl) ?_ ?_ ?_ ?_ ?_).2
    · intro s level hs
      exact hs
    · intro s level bc _ _
      constructor
      · intro _
        right
        simp only [TrainPy.dIterStep]
        rw [hlen bc (cfg.nodesAt level)]
      · intro ev hev
        simp only [TrainPy.dIterStep, List.mem_cons,
          List.not_mem_nil, or_false] at hev
        rcases hev with rfl | rfl
        · intro _ _ _ _ h
          exact absurd h (by simp)
        · intro _ _ _ _ h
          exact absurd h (by simp)
    · intro s level bc _ hs
      cases hy : s.yReal with
      | none =>
          constructor
          · intro h
            simp only [TrainPy.genStep, hy] at h
            exact Option.noConfusion h
          · intro ev hev
            simp only [TrainPy.genStep, hy, List.not_mem_nil] at hev
      | some y =>
          constructor
          · intro _
            simp only [TrainPy.genStep, hy]
            rcases hs with hs | hs
            · rw [hs] at hy; exact Option.noConfusion hy
            · rw [hs] at hy
              exact Or.inr hy.symm
          · intro ev hev
            simp only [TrainPy.genStep, hy, List.mem_singleton] at hev
            subst hev
            intro level' bc' target f h
            injection h with h1 h2 h3 h4
            subst h3
            rcases hs with hs | hs
            · rw [hy] at hs; exact Option.noConfusion hs
            · rw [hy] at hs
              exact (Option.some_inj.mp hs)
    · intro s level e bc _ hs
      constructor
      · intro _
        unfold TrainPy.houseStep
        split
        · cases hlg : s.lastGen with
          | none => simp only [hlg]; exact hs
          | some g =>
              simp only [hlg]
              split
              · exact hs
              · exact hs
        · exact hs
      · intro ev hev
        unfold TrainPy.houseStep at hev
        split at hev
        · cases hlg : s.lastGen with
          | none => simp only [hlg] at hev; cases hev
          | some g =>
              simp only [hlg] at hev
              split at hev
              · cases hev
              · simp only [List.mem_singleton] at hev
                subst hev
                intro _ _ _ _ h
                exact absurd h (by simp)
        · cases hev
    · intro s level bc _
      intro _ _ _ _ h
      exact absurd h (by simp)
  · intro hd hb hl he
    obtain ⟨L, hL⟩ := Nat.exists_eq_add_of_le hl
    rw [Nat.add_comm] at hL
    obtain ⟨E, hE⟩ := Nat.exists_eq_add_of_le he
    rw [Nat.add_comm] at hE
    obtain ⟨M, hM⟩ : ∃ M, cfg.n_batch_per_epoch - 1 = M + 1 :=
      ⟨cfg.n_batch_per_epoch - 2, by omega⟩
    have hrange0 : List.range cfg.d_iters = [] := by rw [hd]; rfl
    have hout : TrainPy.outerIter cfg env 0 0 1
        ⟨env.initD 0, Flags.fresh, none, none⟩
        = ⟨⟨env.initD 0, ⟨true, true, true, true, false⟩, none, none⟩,
           [Event.iterStart 0 1 Flags.fresh], some RunErr.nameError⟩ := by
      unfold TrainPy.outerIter
      rw [hrange0]
      simp only [runFold, andThen, TrainPy.genStep]
      rfl
    have hepoch : TrainPy.epochRun cfg env 0 0
        ⟨env.initD 0, Flags.fresh, none, none⟩
        = ⟨⟨env.initD 0, ⟨true, true, true, true, false⟩, none, none⟩,
           [Event.iterStart 0 1 Flags.fresh], some RunErr.nameError⟩ := by
      unfold TrainPy.epochRun
      rw [hM, List.range_succ_eq_map]
      rw [runFold]
      have h01 : (0 : Nat) + 1 = 1 := rfl
      rw [h01, hout]
      rfl
    have hlev : TrainPy.levelRun cfg env 0 TrainPy.initSt
        = ⟨⟨env.initD 0, ⟨true, true, true, true, false⟩, none, none⟩,
           [Event.iterStart 0 1 Flags.fresh], some RunErr.nameError⟩ := by
      unfold TrainPy.levelRun
      simp only [TrainPy.initSt]
      rw [hE, List.range_succ_eq_map]
      rw [runFold, hepoch]
      rfl
    have hrun : TrainPy.train_model cfg env
        = ⟨⟨env.initD 0, ⟨true, true, true, true, false⟩, none, none⟩,
           [Event.iterStart 0 1 Flags.fresh], some RunErr.nameError⟩ := by
      unfold TrainPy.train_model
      rw [hL, List.range_succ_eq_map]
      rw [runFold, hlev]
      rfl
    rw [hrun]
    exact ⟨rfl, rfl⟩

/-- Claim C10 witness: the theorem applied at the concrete scenario
configuration; part (a)'s length hypothesis holds of `envA` and part (b)
applies at the `d_iters = 0` variant of the configuration. -/
theorem C10_witness :
    ((∀ bc n, ((envA.getBatch bc n).1).length = cfgC2.batch_size)
      ∧ ∀ ev ∈ (TrainPy.train_model cfgC2 envA).tr, ∀ level bc target f,
          ev = Event.trainG level bc target f →
            target = List.replicate cfgC2.batch_size (-1)) ∧
    ((TrainPy.train_model { cfgC2 with d_iters := 0 } envA).err
        = some RunErr.nameError
      ∧ countTrainG
          (TrainPy.train_model { cfgC2 with d_iters := 0 } envA).tr = 0) :=
  ⟨⟨fun _ _ => rfl,
    (C10_generator_target_only_from_critic_loop cfgC2 envA).1
      (fun _ _ => rfl)⟩,
    (C10_generator_target_only_from_critic_loop
        { cfgC2 with d_iters := 0 } envA).2
      (by decide) (by decide) (by decide) (by decide)⟩

/-! ## Level bookkeeping lemmas for the `train.py` interpreter -/

theorem sum_map_const_range (n c : Nat) :
    ((List.range n).map (fun _ => c)).sum = n * c := by
  induction n with
  | zero => simp
  | succ n ih =>
      rw [List.range_succ, List.map_append, List.sum_append, ih]
      simp [Nat.succ_mul]

theorem sum_map_indicator_range (n l N : Nat) (h : l < n) :
    ((List.range n).map (fun j => if j = l then N else 0)).sum = N := by
  induction n with
  | zero => omega
  | succ n ih =>
      rw [List.range_succ, List.map_append, List.sum_append]
      rcases Nat.lt_succ_iff_lt_or_eq.mp h with h' | h'
      · rw [ih h']
        have : n ≠ l := by omega
        simp [this]
      · subst h'
        have hz : ((List.range l).map
            (fun j => if j = l then N else 0)).sum = 0 := by
          refine List.sum_eq_zero ?_
          intro x hx
          simp only [List.mem_map, List.mem_range] at hx
          obtain ⟨j, hj, rfl⟩ := hx
          have : j ≠ l := by omega
          simp [this]
        rw [hz]
        simp

theorem countGAt_eq_zero_of_levels {l : Nat} {tr : List Event}
    (h : ∀ ev ∈ tr, eventLevel ev ≠ l) :
    (tr.filter (isTrainGAt l)).length = 0 := by
  rw [List.length_eq_zero]
  rw [List.filter_eq_nil_iff]
  intro ev hev
  have hne := h ev hev
  cases ev with
  | trainG lvl bc y f =>
      simp only [eventLevel] at hne
      simp only [isTrainGAt]
      intro hp
      simp only [beq_iff_eq] at hp
      exact hne hp
  | iterStart lvl bc f => simp [isTrainGAt]
  | clipD lvl bc => simp [isTrainGAt]
  | trainD lvl bc a b c d => simp [isTrainGAt]
  | plot lvl e bc => simp [isTrainGAt]

namespace TrainPy

theorem dIterStep_events_level (cfg : Cfg) (env : Env) (level bc : Nat)
    (s : St) :
    ∀ ev ∈ (dIterStep cfg env level bc s).tr, eventLevel ev = level := by
  intro ev hev
  simp only [dIterStep, List.mem_cons, List.not_mem_nil, or_false] at hev
  rcases hev with rfl | rfl <;> rfl

theorem genStep_events_level (level bc : Nat) (s : St) :
    ∀ ev ∈ (genStep level bc s).tr, eventLevel ev = level := by
  intro ev hev
  cases hy : s.yReal with
  | none => simp only [genStep, hy, List.not_mem_nil] at hev
  | some y =>
      simp only [genStep, hy, List.mem_singleton] at hev
      subst hev
      rfl

theorem houseStep_events_level (cfg : Cfg) (env : Env) (level e bc : Nat)
    (s : St) :
    ∀ ev ∈ (houseStep cfg env level e bc s).tr, eventLevel ev = level := by
  intro ev hev
  unfold houseStep at hev
  split at hev
  · cases hlg : s.lastGen with
    | none => simp only [hlg] at hev; cases hev
    | some g =>
        simp only [hlg] at hev
        split at hev
        · cases hev
        · simp only [List.mem_singleton] at hev
          subst hev
          rfl
  · cases hev

theorem outerIter_events_level (cfg : Cfg) (env : Env) (level e bc : Nat)
    (s : St) :
    ∀ ev ∈ (outerIter cfg env level e bc s).tr, eventLevel ev = level := by
  unfold outerIter
  refine andThen_events _ _ ?_ ?_
  · intro ev hev
    rcases List.mem_singleton.mp hev with rfl
    rfl
  · intro s0
    refine andThen_events _ _ ?_ ?_
    · exact runFold_events _ _ s0
        (fun s' i _ => dIterStep_events_level cfg env level bc s')
    · intro s1
      refine andThen_events _ _ ?_ ?_
      · exact genStep_events_level level bc s1
      · intro s2
        exact houseStep_events_level cfg env level e bc s2

theorem levelRun_events_level (cfg : Cfg) (env : Env) (level : Nat)
    (s : St) :
    ∀ ev ∈ (levelRun cfg env level s).tr, eventLevel ev = level := by
  unfold levelRun
  exact runFold_events _ _ _
    (fun s' e _ => runFold_events _ _ s'
      (fun s'' i _ => outerIter_events_level cfg env level e (i + 1) s''))

theorem dIterStep_countGAt (cfg : Cfg) (env : Env) (level bc : Nat)
    (s : St) (l : Nat) :
    ((dIterStep cfg env level bc s).tr.filter (isTrainGAt l)).length = 0 := by
  simp [dIterStep, isTrainGAt, List.filter]

theorem genStep_countGAt_self (level bc : Nat) {s : St}
    (hok : (genStep level bc s).err = none) :
    ((genStep level bc s).tr.filter (isTrainGAt level)).length = 1 := by
  cases hy : s.yReal with
  | none =>
      exfalso
      simp only [genStep, hy] at hok
      exact Option.noConfusion hok
  | some y =>
      simp [genStep, hy, isTrainGAt, List.filter]

theorem houseStep_countGAt (cfg : Cfg) (env : Env) (level e bc : Nat)
    (s : St) (l : Nat) :
    ((houseStep cfg env level e bc s).tr.filter (isTrainGAt l)).length
      = 0 := by
  unfold houseStep
  split
  · cases hlg : s.lastGen with
    | none => simp only [hlg]; rfl
    | some g =>
        simp only [hlg]
        split
        · rfl
        · simp [isTrainGAt, List.filter]
  · rfl

theorem outerIter_countGAt_self (cfg : Cfg) (env : Env) (level e bc : Nat)
    (s : St) (hok : (outerIter cfg env level e bc s).err = none) :
    ((outerIter cfg env level e bc s).tr.filter (isTrainGAt level)).length
      = 1 := by
  unfold outerIter at hok ⊢
  rw [andThen_of_ok rfl] at hok ⊢
  have h1 := andThen_err_none hok
  rw [andThen_of_ok h1.1] at hok ⊢
  have h2 := andThen_err_none h1.2
  rw [andThen_of_ok h2.1] at hok ⊢
  simp only [List.filter_append, List.length_append]
  have hA : (([Event.iterStart level bc s.flags]).filter
      (isTrainGAt level)).length = 0 := by simp [isTrainGAt, List.filter]
  have hB := runFold_count
    (fun s' _ => dIterStep cfg env level bc s') (isTrainGAt level)
    (fun _ => 0) (List.range cfg.d_iters) s
    (fun s' i _ _ => dIterStep_countGAt cfg env level bc s' level) h1.1
  have hBz : ((List.range cfg.d_iters).map (fun _ => (0 : Nat))).sum = 0 := by
    rw [sum_map_const_range]
    omega
  have hC := genStep_countGAt_self level bc h2.1
  rw [hA, hB, hBz, hC, houseStep_countGAt]

theorem epochRun_countGAt_self (cfg : Cfg) (env : Env) (level e : Nat)
    (s : St) (hok : (epochRun cfg env level e s).err = none) :
    ((epochRun cfg env level e s).tr.filter (isTrainGAt level)).length
      = cfg.n_batch_per_epoch - 1 := by
  unfold epochRun at hok ⊢
  rw [runFold_count _ (isTrainGAt level) (fun _ => 1) _ s
    (fun s' i _ hok' =>
      outerIter_countGAt_self cfg env level e (i + 1) s' hok') hok]
  rw [sum_map_const_range]
  omega

theorem levelRun_countGAt_self (cfg : Cfg) (env : Env) (level : Nat)
    (s : St) (hok : (levelRun cfg env level s).err = none) :
    ((levelRun cfg env level s).tr.filter (isTrainGAt level)).length
      = cfg.n_epochs * (cfg.n_batch_per_epoch - 1) := by
  unfold levelRun at hok ⊢
  rw [runFold_count _ (isTrainGAt level) (fun _ => cfg.n_batch_per_epoch - 1)
    _ _ (fun s' e _ hok' => epochRun_countGAt_self cfg env level e s' hok')
    hok]
  rw [sum_map_const_range]

end TrainPy

/-- Claim C8: `train.py` trains levels in strictly increasing order: the
event levels along the whole trace are non-decreasing (so no event of
level `l` precedes any event of a lower level), and on an error-free run
every level `l < n_levels` receives its full schedule of
`n_epochs * (n_batch_per_epoch - 1)` generator updates — all of which,
by the ordering, happen before any higher level's first update. -/
theorem C8_levels_trained_in_increasing_order (cfg : Cfg) (env : Env) :
    (TrainPy.train_model cfg env).tr.Pairwise
        (fun a b => eventLevel a ≤ eventLevel b)
      ∧ ((TrainPy.train_model cfg env).err = none →
          ∀ l, l < cfg.n_levels →
            countTrainGAt l (TrainPy.train_model cfg env).tr
              = cfg.n_epochs * (cfg.n_batch_per_epoch - 1)) := by
  constructor
  · exact runFold_level_pairwise _ _ _
      (fun s l => TrainPy.levelRun_events_level cfg env l s)
      ((List.pairwise_lt_range cfg.n_levels).imp le_of_lt)
  · intro hok l hl
    unfold countTrainGAt
    unfold TrainPy.train_model at hok ⊢
    rw [runFold_count _ (isTrainGAt l)
      (fun j => if j = l then cfg.n_epochs * (cfg.n_batch_per_epoch - 1)
        else 0) _ _ ?_ hok]
    · exact sum_map_indicator_range cfg.n_levels l _ hl
    · intro s j hj hok'
      by_cases hjl : j = l
      · subst hjl
        exact (TrainPy.levelRun_countGAt_self cfg env j s hok').trans
          (by simp)
      · exact (countGAt_eq_zero_of_levels
          (fun ev hev => by
            rw [TrainPy.levelRun_events_level cfg env j s ev hev]
            exact hjl)).trans (by simp [hjl])

/-- Claim C8 witness: the ordering theorem applied at the concrete
one-level scenario, where the error-free run gives level 0 exactly
`1 * (2 - 1) = 1` generator update. -/
theorem C8_witness :
    (TrainPy.train_model cfgC2 envA).err = none
      ∧ (0 < cfgC2.n_levels
          ∧ countTrainGAt 0 (TrainPy.train_model cfgC2 envA).tr
              = cfgC2.n_epochs * (cfgC2.n_batch_per_epoch - 1)) :=
  ⟨by decide,
    by decide,
    (C8_levels_trained_in_increasing_order cfgC2 envA).2 (by decide) 0
      (by decide)⟩

/-! ## Soundness of the `train_one_by_one.py` interpreter -/

namespace TrainObo

theorem freezeAlt_d (rule : String) (bc : Nat) (f : Flags) :
    (freezeAlt rule bc f).d = f.d := by
  unfold freezeAlt
  split_ifs <;> rfl

/-- Unfreezing after freezing restores the flags, provided the four
generator flags were all set (the batch counter is unchanged between the
two, so the same branch is taken). -/
theorem unfreezeAlt_freezeAlt (rule : String) (bc : Nat) (f : Flags)
    (hg : f.g = true) (hcg : f.cg = true) (hm : f.m = true)
    (hcm : f.cm = true) :
    unfreezeAlt rule bc (freezeAlt rule bc f) = f := by
  obtain ⟨g, cg, m, cm, d⟩ := f
  simp only at hg hcg hm hcm
  subst hg hcg hm hcm
  unfold freezeAlt unfreezeAlt
  split_ifs <;> rfl

theorem houseStep_st (cfg : Cfg) (env : Env) (level e bc : Nat) (s : St) :
    (houseStep cfg env level e bc s).st = s := by
  unfold houseStep
  cases hlg : s.lastGen with
  | none =>
      split
      · simp only [hlg, andThen]
      · simp only [andThen]
        split <;> rfl
  | some g =>
      split
      · simp only [hlg]
        split
        · simp only [andThen]
        · simp only [andThen]
          split <;> rfl
      · simp only [andThen]
        split <;> rfl

theorem houseStep_events (cfg : Cfg) (env : Env) (level e bc : Nat)
    (s : St) :
    ∀ ev ∈ (houseStep cfg env level e bc s).tr,
      ev = Event.plot level e (bc + 1) := by
  unfold houseStep
  refine andThen_events _ _ ?_ ?_
  · intro ev hev
    split at hev
    · cases hlg : s.lastGen with
      | none => simp only [hlg] at hev; cases hev
      | some g =>
          simp only [hlg] at hev
          split at hev
          · cases hev
          · exact List.mem_singleton.mp hev
    · cases hev
  · intro s1 ev hev
    split at hev <;> cases hev

/-- Master soundness lemma for `train_one_by_one.py`'s `train_model`. -/
theorem train_model_sound_obo (cfg : Cfg) (env : Env)
    {Inv : St → Prop} {P : Event → Prop}
    (hInit : Inv initSt)
    (hReset : ∀ s level, Inv s →
      Inv { s with dLayers := env.initD level, flags := Flags.fresh })
    (hD : ∀ s level bc, 1 ≤ bc → Inv s →
      (((dIterStep cfg env level bc s).err = none →
          Inv (dIterStep cfg env level bc s).st)
        ∧ ∀ ev ∈ (dIterStep cfg env level bc s).tr, P ev))
    (hG : ∀ s level bc, 1 ≤ bc → Inv s →
      (((genStep cfg level bc s).err = none →
          Inv (genStep cfg level bc s).st)
        ∧ ∀ ev ∈ (genStep cfg level bc s).tr, P ev))
    (hH : ∀ s level e bc, 1 ≤ bc → Inv s →
      (((houseStep cfg env level e bc s).err = none →
          Inv (houseStep cfg env level e bc s).st)
        ∧ ∀ ev ∈ (houseStep cfg env level e bc s).tr, P ev))
    (hI : ∀ s level bc, Inv s → P (Event.iterStart level bc s.flags)) :
    (((train_model cfg env).err = none → Inv (train_model cfg env).st)
      ∧ ∀ ev ∈ (train_model cfg env).tr, P ev) := by
  have houter : ∀ s level e bc, 1 ≤ bc → Inv s →
      (((outerIter cfg env level e bc s).err = none →
          Inv (outerIter cfg env level e bc s).st)
        ∧ ∀ ev ∈ (outerIter cfg env level e bc s).tr, P ev) := by
    intro s level e bc hbc hs
    unfold outerIter
    refine andThen_sound _ _ (fun _ => hs) ?_ ?_
    · intro ev hev
      rcases List.mem_singleton.mp hev with rfl
      exact hI s level bc hs
    · intro s0 hs0
      refine andThen_sound _ _ ?_ ?_ ?_
      · intro h
        exact (runFold_sound _ _ s0 hs0
          (fun s' i _ hs' => hD s' level bc hbc hs')).1 h
      · exact (runFold_sound _ _ s0 hs0
          (fun s' i _ hs' => hD s' level bc hbc hs')).2
      · intro s1 hs1
        refine andThen_sound _ _ ?_ ?_ ?_
        · exact (hG s1 level bc hbc hs1).1
        · exact (hG s1 level bc hbc hs1).2
        · intro s2 hs2
          exact hH s2 level e bc hbc hs2
  have hepoch : ∀ s level e, Inv s →
      (((epochRun cfg env level e s).err = none →
          Inv (epochRun cfg env level e s).st)
        ∧ ∀ ev ∈ (epochRun cfg env level e s).tr, P ev) := by
    intro s level e hs
    exact runFold_sound _ _ s hs
      (fun s' i _ hs' => houter s' level e (i + 1) (Nat.le_add_left 1 i) hs')
  have hlevel : ∀ s level, Inv s →
      (((levelRun cfg env level s).err = none →
          Inv (levelRun cfg env level s).st)
        ∧ ∀ ev ∈ (levelRun cfg env level s).tr, P ev) := by
    intro s level hs
    unfold levelRun
    exact runFold_sound _ _ _ (hReset s level hs)
      (fun s' e _ hs' => hepoch s' level e hs')
  exact runFold_sound _ _ initSt hInit (fun s l _ hs => hlevel s l hs)

end TrainObo

/-- Claim C9: in `train_one_by_one.py`, the trainable-flag toggles are
symmetric around the generator phase: at the start of every outer
iteration all five trainable flags are `True`, during every stacked-model
update the discriminator's flag is `False`, and when a run ends without
error all flags are `True` again at loop exit.  (Freeze and restore use
the same `batch_counter % 20` test and the same rule, so exactly the
frozen role is restored.) -/
theorem C9_trainable_flags_symmetric (cfg : Cfg) (env : Env) :
    ((∀ ev ∈ (TrainObo.train_model cfg env).tr, ∀ level bc f,
        ev = Event.iterStart level bc f → f.allB = true)
      ∧ ∀ ev ∈ (TrainObo.train_model cfg env).tr, ∀ level bc y f,
          ev = Event.trainG level bc y f → f.d = false)
      ∧ ((TrainObo.train_model cfg env).err = none →
          (TrainObo.train_model cfg env).st.flags.allB = true) := by
  have h := @TrainObo.train_model_sound_obo cfg env
    (fun s => s.flags.allB = true)
    (fun ev =>
      (∀ level bc f, ev = Event.iterStart level bc f → f.allB = true)
      ∧ (∀ level bc y f, ev = Event.trainG level bc y f → f.d = false))
    rfl
    (fun s level _ => rfl)
    ?_ ?_ ?_ ?_
  · exact ⟨⟨fun ev hev => ((h.2 ev hev).1), fun ev hev => ((h.2 ev hev).2)⟩,
      h.1⟩
  · intro s level bc _ hs
    constructor
    · intro _
      simp only [TrainObo.dIterStep]
      split
      · exact hs
      · exact hs
    · intro ev hev
      simp only [TrainObo.dIterStep] at hev
      split at hev
      · simp only [List.mem_cons, List.not_mem_nil, or_false] at hev
        rcases hev with rfl | rfl
        · exact ⟨fun _ _ _ h => absurd h (by simp),
            fun _ _ _ _ h => absurd h (by simp)⟩
        · exact ⟨fun _ _ _ h => absurd h (by simp),
            fun _ _ _ _ h => absurd h (by simp)⟩
      · cases hev
  · intro s level bc _ hs
    have hs' := hs
    simp only [Flags.allB, Bool.and_eq_true] at hs'
    obtain ⟨⟨⟨⟨hg, hcg⟩, hm⟩, hcm⟩, hd⟩ := hs'
    cases hy : s.yReal with
    | none =>
        constructor
        · intro h
          simp only [TrainObo.genStep, hy] at h
          exact Option.noConfusion h
        · intro ev hev
          simp only [TrainObo.genStep, hy, List.not_mem_nil] at hev
    | some y =>
        constructor
        · intro _
          simp only [TrainObo.genStep, hy]
          by_cases ht : cfg.train_one_by_one
          · simp only [ht, if_true]
            unfold TrainObo.freezeAlt TrainObo.unfreezeAlt
            split_ifs <;> simp [Flags.allB, hg, hcg, hm, hcm]
          · simp [ht, Flags.allB, hg, hcg, hm, hcm]
        · intro ev hev
          simp only [TrainObo.genStep, hy, List.mem_singleton] at hev
          subst hev
          refine ⟨fun _ _ _ h => absurd h (by simp), ?_⟩
          intro level' bc' y' f' h
          injection h with h1 h2 h3 h4
          subst h4
          by_cases ht : cfg.train_one_by_one
          · simp only [ht, if_true]
            rw [TrainObo.freezeAlt_d]
          · simp [ht]
  · intro s level e bc _ hs
    constructor
    · intro _
      rw [TrainObo.houseStep_st]
      exact hs
    · intro ev hev
      rw [TrainObo.houseStep_events cfg env level e bc s ev hev]
      exact ⟨fun _ _ _ h => absurd h (by simp),
        fun _ _ _ _ h => absurd h (by simp)⟩
  · intro s level bc hs
    exact ⟨fun _ _ f h => by injection h with h1 h2 h3; subst h3; exact hs,
      fun _ _ _ _ h => absurd h (by simp)⟩

/-- Claim C9 witness: the flag-symmetry theorem applied at the concrete
alternation configuration; the error-free run ends with all flags set. -/
theorem C9_witness :
    (TrainObo.train_model cfgC3 envA).err = none
      ∧ (TrainObo.train_model cfgC3 envA).st.flags.allB = true :=
  ⟨by decide, (C9_trainable_flags_symmetric cfgC3 envA).2 (by decide)⟩

theorem TrainObo.realLoc_length (cfg : Cfg) (env : Env) (level bc : Nat)
    (hbc : 1 ≤ bc)
    (hlen : bc * cfg.batch_size ≤ (env.dataGeom (cfg.nodesAt level)).length) :
    (TrainObo.realLoc cfg env level bc).length = cfg.batch_size := by
  obtain ⟨n, rfl⟩ : ∃ n, bc = n + 1 := ⟨bc - 1, by omega⟩
  unfold TrainObo.realLoc
  rw [List.length_take, List.length_drop]
  simp only [Nat.add_sub_cancel]
  rw [Nat.succ_mul] at hlen
  omega

/-- Claim C3 counterexample: at batch counter 1 (first half of the
20-step cycle) with rule `mgd` and alternation on, the recorded generator
update has the conditional geometry generator frozen
(`cg_model.trainable = False`) and the unconditioned geometry generator
trainable — the opposite of the claim's "first half trains the
conditional role only" — so the claim's schedule predicate fails on the
trace. -/
theorem C3_cex_first_half_freezes_conditional_role :
    ¬ ((TrainObo.train_model cfgC3 envA).tr.all
        (specC3FirstHalfTrainsConditionalB cfgC3.rule) = true) := by
  decide

/-- Claim C3 (amended): with alternation enabled, during the first half of
each 20-step cycle (`batch_counter % 20 < 10`) the CONDITIONAL generator
role of the active rule is frozen (only the unconditioned role receives
gradient updates), during the second half the unconditioned role is
frozen (only the conditional role trains); exactly one of the rule's two
roles is frozen at each generator step, and both are unfrozen again at
the start of every outer iteration. -/
theorem C3_amended_first_half_freezes_conditional (cfg : Cfg) (env : Env)
    (ht : cfg.train_one_by_one = true) :
    (∀ ev ∈ (TrainObo.train_model cfg env).tr, ∀ level bc y f,
        ev = Event.trainG level bc y f →
          ((bc % 20 < 10 →
              (cfg.rule = "mgd" →
                f.cg = false ∧ f.g = true ∧ f.m = true ∧ f.cm = true)
              ∧ (cfg.rule = "gmd" →
                f.cm = false ∧ f.g = true ∧ f.cg = true ∧ f.m = true))
            ∧ (10 ≤ bc % 20 →
              (cfg.rule = "mgd" →
                f.g = false ∧ f.cg = true ∧ f.m = true ∧ f.cm = true)
              ∧ (cfg.rule = "gmd" →
                f.m = false ∧ f.g = true ∧ f.cg = true ∧ f.cm = true))))
      ∧ (∀ ev ∈ (TrainObo.train_model cfg env).tr, ∀ level bc f,
          ev = Event.iterStart level bc f → f.allB = true) := by
  have h := @TrainObo.train_model_sound_obo cfg env
    (fun s => s.flags.allB = true)
    (fun ev =>
      (∀ level bc y f, ev = Event.trainG level bc y f →
          ((bc % 20 < 10 →
              (cfg.rule = "mgd" →
                f.cg = false ∧ f.g = true ∧ f.m = true ∧ f.cm = true)
              ∧ (cfg.rule = "gmd" →
                f.cm = false ∧ f.g = true ∧ f.cg = true ∧ f.m = true))
            ∧ (10 ≤ bc % 20 →
              (cfg.rule = "mgd" →
                f.g = false ∧ f.cg = true ∧ f.m = true ∧ f.cm = true)
              ∧ (cfg.rule = "gmd" →
                f.m = false ∧ f.g = true ∧ f.cg = true ∧ f.cm = true))))
      ∧ (∀ level bc f, ev = Event.iterStart level bc f → f.allB = true))
    rfl
    (fun s level _ => rfl)
    ?_ ?_ ?_ ?_
  · exact ⟨fun ev hev => (h.2 ev hev).1, fun ev hev => (h.2 ev hev).2⟩
  · intro s level bc _ hs
    constructor
    · intro _
      simp only [TrainObo.dIterStep]
      split
      · exact hs
      · exact hs
    · intro ev hev
      simp only [TrainObo.dIterStep] at hev
      split at hev
      · simp only [List.mem_cons, List.not_mem_nil, or_false] at hev
        rcases hev with rfl | rfl
        · exact ⟨fun _ _ _ _ hEq => absurd hEq (by simp),
            fun _ _ _ hEq => absurd hEq (by simp)⟩
        · exact ⟨fun _ _ _ _ hEq => absurd hEq (by simp),
            fun _ _ _ hEq => absurd hEq (by simp)⟩
      · cases hev
  · intro s level bc _ hs
    have hs' := hs
    simp only [Flags.allB, Bool.and_eq_true] at hs'
    obtain ⟨⟨⟨⟨hg, hcg⟩, hm⟩, hcm⟩, hd⟩ := hs'
    cases hy : s.yReal with
    | none =>
        constructor
        · intro hEr
          simp only [TrainObo.genStep, hy] at hEr
          exact Option.noConfusion hEr
        · intro ev hev
          simp only [TrainObo.genStep, hy, List.not_mem_nil] at hev
    | some y =>
        constructor
        · intro _
          simp only [TrainObo.genStep, hy]
          simp only [ht, if_true]
          unfold TrainObo.freezeAlt TrainObo.unfreezeAlt
          split_ifs <;> simp [Flags.allB, hg, hcg, hm, hcm]
        · intro ev hev
          simp only [TrainObo.genStep, hy, List.mem_singleton] at hev
          subst hev
          refine ⟨?_, fun _ _ _ hEq => absurd hEq (by simp)⟩
          intro level' bc' y' f' hEq
          injection hEq with h1 h2 h3 h4
          subst h2 h4
          simp only [ht, if_true]
          constructor
          · intro h20
            constructor
            · intro hrule
              unfold TrainObo.freezeAlt
              rw [if_pos h20, if_pos hrule]
              exact ⟨rfl, hg, hm, hcm⟩
            · intro hrule
              have hne : ¬ (cfg.rule = "mgd") := by simp [hrule]
              unfold TrainObo.freezeAlt
              rw [if_pos h20, if_neg hne, if_pos hrule]
              exact ⟨rfl, hg, hcg, hm⟩
          · intro h20
            have h20' : ¬ (bc % 20 < 10) := by omega
            constructor
            · intro hrule
              unfold TrainObo.freezeAlt
              rw [if_neg h20', if_pos hrule]
              exact ⟨rfl, hcg, hm, hcm⟩
            · intro hrule
              have hne : ¬ (cfg.rule = "mgd") := by simp [hrule]
              unfold TrainObo.freezeAlt
              rw [if_neg h20', if_neg hne, if_pos hrule]
              exact ⟨rfl, hg, hcg, hcm⟩
  · intro s level e bc _ hs
    constructor
    · intro _
      rw [TrainObo.houseStep_st]
      exact hs
    · intro ev hev
      rw [TrainObo.houseStep_events cfg env level e bc s ev hev]
      exact ⟨fun _ _ _ _ hEq => absurd hEq (by simp),
        fun _ _ _ hEq => absurd hEq (by simp)⟩
  · intro s level bc hs
    refine ⟨fun _ _ _ _ hEq => absurd hEq (by simp), ?_⟩
    intro _ _ f hEq
    injection hEq with h1 h2 h3
    subst h3
    exact hs

/-- Claim C3 witness: the amended schedule theorem applied at the
concrete alternation configuration (which indeed has the toggle on). -/
theorem C3_witness :
    cfgC3.train_one_by_one = true
      ∧ (∀ ev ∈ (TrainObo.train_model cfgC3 envA).tr, ∀ level bc f,
          ev = Event.iterStart level bc f → f.allB = true) :=
  ⟨by decide,
    (C3_amended_first_half_freezes_conditional cfgC3 envA (by decide)).2⟩

/-- Claim C4 counterexample: with `train_loss = 'binary_crossentropy'`
the critic-batch labels are still `-1`/`+1` — the cross-entropy label
branch in `train_one_by_one.py` (lines 318-338) is commented out — so
the claim's 0/1 labeling fails on the trace. -/
theorem C4_cex_cross_entropy_labels_are_not_zero_one :
    cfgC4.train_loss = "binary_crossentropy"
      ∧ ¬ ((TrainObo.train_model cfgC4 envA).tr.all specC4ZeroOneLabelsB
            = true) := by
  constructor
  · rfl
  · decide

/-- Claim C4 (amended): for every critic-update batch, under EITHER loss
configuration the labels are real = `-1` followed by generated = `+1`
(one constant label per batch half): `y_real = -ones` and
`y_gen = +ones` are assigned unconditionally, the `train_loss` switch
affecting only the compiled loss function. -/
theorem C4_amended_labels_minus_one_plus_one_under_either_loss
    (cfg : Cfg) (env : Env) :
    ∀ ev ∈ (TrainObo.train_model cfg env).tr, ∀ level bc xloc xpru y cl,
      ev = Event.trainD level bc xloc xpru y cl →
        y = List.replicate (TrainObo.realLoc cfg env level bc).length (-1)
            ++ List.replicate ((env.genBatch level).1).length (1 : ℚ) := by
  have h := @TrainObo.train_model_sound_obo cfg env
    (fun _ => True)
    (fun ev => ∀ level bc xloc xpru y cl,
      ev = Event.trainD level bc xloc xpru y cl →
        y = List.replicate (TrainObo.realLoc cfg env level bc).length (-1)
            ++ List.replicate ((env.genBatch level).1).length (1 : ℚ))
    trivial
    (fun _ _ _ => trivial)
    ?_ ?_ ?_ ?_
  · exact h.2
  · intro s level bc _ _
    refine ⟨fun _ => trivial, ?_⟩
    intro ev hev
    simp only [TrainObo.dIterStep] at hev
    split at hev
    · simp only [List.mem_cons, List.not_mem_nil, or_false] at hev
      rcases hev with rfl | rfl
      · intro _ _ _ _ _ _ hEq
        exact absurd hEq (by simp)
      · intro level' bc' xloc' xpru' y' cl' hEq
        injection hEq with h1 h2 h3 h4 h5 h6
        subst h1 h2 h5
        rfl
    · cases hev
  · intro s level bc _ _
    refine ⟨fun _ => trivial, ?_⟩
    intro ev hev
    cases hy : s.yReal with
    | none => simp only [TrainObo.genStep, hy, List.not_mem_nil] at hev
    | some y =>
        simp only [TrainObo.genStep, hy, List.mem_singleton] at hev
        subst hev
        intro _ _ _ _ _ _ hEq
        exact absurd hEq (by simp)
  · intro s level e bc _ _
    refine ⟨fun _ => trivial, ?_⟩
    intro ev hev
    rw [TrainObo.houseStep_events cfg env level e bc s ev hev]
    intro _ _ _ _ _ _ hEq
    exact absurd hEq (by simp)
  · intro s level bc _
    intro _ _ _ _ _ _ hEq
    exact absurd hEq (by simp)

/-- Claim C4 witness: the amended labeling theorem applied at the
concrete cross-entropy configuration, at the critic-update event its run
actually emits. -/
theorem C4_witness :
    Event.trainD 0 1 ([0, 1, 2, 3] ++ [20, 21, 22, 23])
        ([10, 11, 12, 13] ++ [30, 31, 32, 33])
        (List.replicate 4 (-1) ++ List.replicate 4 (1 : ℚ)) [dLayer0]
      ∈ (TrainObo.train_model cfgC4 envA).tr
    ∧ (List.replicate 4 (-1) ++ List.replicate 4 (1 : ℚ))
        = List.replicate (TrainObo.realLoc cfgC4 envA 0 1).length (-1)
          ++ List.replicate ((envA.genBatch 0).1).length (1 : ℚ) :=
  ⟨by decide,
    C4_amended_labels_minus_one_plus_one_under_either_loss cfgC4 envA
      (Event.trainD 0 1 ([0, 1, 2, 3] ++ [20, 21, 22, 23])
        ([10, 11, 12, 13] ++ [30, 31, 32, 33])
        (List.replicate 4 (-1) ++ List.replicate 4 (1 : ℚ)) [dLayer0])
      (by decide) 0 1 _ _ _ _ rfl⟩

/-- Claim C7: in the Wasserstein setting, every critic-update batch of
`train_one_by_one.py` is exactly `batch_size` real samples followed by
exactly `batch_size` generated samples, for the location tensor, the
morphology tensor and the label tensor alike, with labels
`-1^batch_size ++ +1^batch_size` — assuming the external generated-batch
and morphology-batch collaborators return `batch_size` samples (the real
location slice is taken in-source and its length is proved, not
assumed). -/
theorem C7_wasserstein_critic_batch_layout (cfg : Cfg) (env : Env)
    (_hloss : cfg.train_loss = "wasserstein_loss")
    (hgen1 : ∀ level, ((env.genBatch level).1).length = cfg.batch_size)
    (hgen2 : ∀ level, ((env.genBatch level).2).length = cfg.batch_size)
    (hpru : ∀ level bc, (env.getBatchP level bc).length = cfg.batch_size) :
    ∀ ev ∈ (TrainObo.train_model cfg env).tr, ∀ level bc xloc xpru y cl,
      ev = Event.trainD level bc xloc xpru y cl →
        xloc = TrainObo.realLoc cfg env level bc ++ (env.genBatch level).1
          ∧ (TrainObo.realLoc cfg env level bc).length = cfg.batch_size
          ∧ xpru = env.getBatchP level bc ++ (env.genBatch level).2
          ∧ (env.getBatchP level bc).length = cfg.batch_size
          ∧ ((env.genBatch level).1).length = cfg.batch_size
          ∧ ((env.genBatch level).2).length = cfg.batch_size
          ∧ y = List.replicate cfg.batch_size (-1)
              ++ List.replicate cfg.batch_size (1 : ℚ) := by
  have h := @TrainObo.train_model_sound_obo cfg env
    (fun _ => True)
    (fun ev => ∀ level bc xloc xpru y cl,
      ev = Event.trainD level bc xloc xpru y cl →
        xloc = TrainObo.realLoc cfg env level bc ++ (env.genBatch level).1
          ∧ (TrainObo.realLoc cfg env level bc).length = cfg.batch_size
          ∧ xpru = env.getBatchP level bc ++ (env.genBatch level).2
          ∧ (env.getBatchP level bc).length = cfg.batch_size
          ∧ ((env.genBatch level).1).length = cfg.batch_size
          ∧ ((env.genBatch level).2).length = cfg.batch_size
          ∧ y = List.replicate cfg.batch_size (-1)
              ++ List.replicate cfg.batch_size (1 : ℚ))
    trivial
    (fun _ _ _ => trivial)
    ?_ ?_ ?_ ?_
  · exact h.2
  · intro s level bc hbc _
    refine ⟨fun _ => trivial, ?_⟩
    intro ev hev
    simp only [TrainObo.dIterStep] at hev
    split at hev
    · rename_i hdata
      have hrl : (TrainObo.realLoc cfg env level bc).length
          = cfg.batch_size :=
        TrainObo.realLoc_length cfg env level bc hbc hdata
      simp only [List.mem_cons, List.not_mem_nil, or_false] at hev
      rcases hev with rfl | rfl
      · intro _ _ _ _ _ _ hEq
        exact absurd hEq (by simp)
      · intro level' bc' xloc' xpru' y' cl' hEq
        injection hEq with h1 h2 h3 h4 h5 h6
        subst h1 h2 h3 h4 h5
        exact ⟨rfl, hrl, rfl, hpru level bc, hgen1 level, hgen2 level,
          by rw [hrl, hgen1 level]⟩
    · cases hev
  · intro s level bc _ _
    refine ⟨fun _ => trivial, ?_⟩
    intro ev hev
    cases hy : s.yReal with
    | none => simp only [TrainObo.genStep, hy, List.not_mem_nil] at hev
    | some y =>
        simp only [TrainObo.genStep, hy, List.mem_singleton] at hev
        subst hev
        intro _ _ _ _ _ _ hEq
        exact absurd hEq (by simp)
  · intro s level e bc _ _
    refine ⟨fun _ => trivial, ?_⟩
    intro ev hev
    rw [TrainObo.houseStep_events cfg env level e bc s ev hev]
    intro _ _ _ _ _ _ hEq
    exact absurd hEq (by simp)
  · intro s level bc _
    intro _ _ _ _ _ _ hEq
    exact absurd hEq (by simp)

/-- Claim C7 witness: the batch-layout theorem applied at the concrete
Wasserstein configuration and environment, whose collaborators return
batches of `batch_size = 4` samples. -/
theorem C7_witness :
    (cfgC2.train_loss = "wasserstein_loss"
      ∧ (∀ level, ((envA.genBatch level).1).length = cfgC2.batch_size)
      ∧ (∀ level, ((envA.genBatch level).2).length = cfgC2.batch_size)
      ∧ (∀ level bc, (envA.getBatchP level bc).length = cfgC2.batch_size))
      ∧ ∀ ev ∈ (TrainObo.train_model cfgC2 envA).tr,
          ∀ level bc xloc xpru y cl,
            ev = Event.trainD level bc xloc xpru y cl →
              xloc = TrainObo.realLoc cfgC2 envA level bc
                  ++ (envA.genBatch level).1
                ∧ (TrainObo.realLoc cfgC2 envA level bc).length
                    = cfgC2.batch_size
                ∧ xpru = envA.getBatchP level bc ++ (envA.genBatch level).2
                ∧ (envA.getBatchP level bc).length = cfgC2.batch_size
                ∧ ((envA.genBatch level).1).length = cfgC2.batch_size
                ∧ ((envA.genBatch level).2).length = cfgC2.batch_size
                ∧ y = List.replicate cfgC2.batch_size (-1)
                    ++ List.replicate cfgC2.batch_size (1 : ℚ) :=
  ⟨⟨rfl, fun _ => rfl, fun _ => rfl, fun _ _ => rfl⟩,
    C7_wasserstein_critic_batch_layout cfgC2 envA rfl (fun _ => rfl)
      (fun _ => rfl) (fun _ _ => rfl)⟩

end McNeuronModel
